/-
Verification of the Intranet-x402 settlement engine:
a shallow embedding of the LocalUSDC ledger (src/local/evm/src/LocalUSDC.sol)
and of the facilitator verify→settle lifecycle hooks
(the TypeScript facilitator service), with theorems settling the
specification's claims about them.

Conventions of the embedding:
- EVM addresses, uint256 words and bytes32 values are Nat; address(0) is 0;
  uint256 overflow in `unchecked` blocks is modelled by `% UINT256`, while
  checked arithmetic is modelled by an explicit overflow test that reverts.
- Solidity mappings are total functions with pointwise update.
- `require(c, e)` is transcribed as `if ¬c then throw e else continue`;
  a revert is an `Except.error`, and the EVM's transaction-level rollback is
  captured by the `...Call` wrappers that return the pre-state on error.
- keccak256 digesting composed with ecrecover is abstracted as a single
  function parameter `ec` from the signed fields and the split signature to
  the recovered address (0 meaning recovery failure), exactly the data the
  contract feeds into the hash and precompile.
-/
import Mathlib

set_option maxHeartbeats 1000000

namespace LocalUSDC

/-- The uint256 modulus. -/
def UINT256 : Nat := 2 ^ 256

/-- Pointwise update of a Solidity mapping(address => uint256). -/
def upd (f : Nat → Nat) (k v : Nat) : Nat → Nat :=
  fun a => if a = k then v else f a

/-- Pointwise update of mapping(address => mapping(bytes32 => bool)). -/
def upd2 (f : Nat → Nat → Bool) (k1 k2 : Nat) (v : Bool) : Nat → Nat → Bool :=
  fun a n => if a = k1 ∧ n = k2 then v else f a n

/-- The fields of a TransferWithAuthorization struct (EIP-3009 authorization).
The Solidity parameter `from` is renamed `fromAddr` (Lean keyword). -/
structure Authorization where
  fromAddr : Nat
  toAddr : Nat
  value : Nat
  validAfter : Nat
  validBefore : Nat
  nonce : Nat
deriving DecidableEq, Repr

/-- The mutable contract state of LocalUSDC: owner, totalSupply, the
balanceOf mapping and the authorizationState nonce mapping. -/
structure LedgerState where
  owner : Nat
  totalSupply : Nat
  balanceOf : Nat → Nat
  authorizationState : Nat → Nat → Bool

/-- The revert reasons of LocalUSDC, one constructor per require message:
"not yet valid", "authorization expired", "authorization used",
"invalid signature length", "invalid v", "invalid signer" (recovered
address(0)), "invalid signature" (recovered address differs from `from`),
"invalid recipient", "insufficient balance". -/
inductive TransferError where
  | NotYetValid
  | Expired
  | NonceAlreadyUsed
  | InvalidSignatureLength
  | InvalidV
  | InvalidSigner
  | InvalidSignature
  | InvalidRecipient
  | InsufficientBalance
deriving DecidableEq, Repr

/-- Revert reasons of mint: the onlyOwner modifier, or a checked-arithmetic
overflow panic in `totalSupply += amount` / `balanceOf[to] += amount`. -/
inductive MintError where
  | OnlyOwner
  | ArithmeticOverflow
deriving DecidableEq, Repr

/-- Abstraction of keccak256 EIP-712 digesting composed with the ecrecover
precompile: from the signed authorization fields (which, with the fixed
domain separator, determine the digest) and the normalized v and the r and s
byte words, to the recovered address; 0 models ecrecover failure. -/
def EcRecover : Type := Authorization → Nat → List Nat → List Nat → Nat

/-- LocalUSDC._recover: require a 65-byte signature, split it into r, s, v,
normalize v by adding 27 when below 27, require v ∈ {27, 28}, run ecrecover,
and require a nonzero recovered address. -/
def _recover (ec : EcRecover) (auth : Authorization) (signature : List Nat) :
    Except TransferError Nat :=
  if signature.length ≠ 65 then .error .InvalidSignatureLength
  else
    let r := signature.take 32
    let s := (signature.drop 32).take 32
    let v0 := signature.getD 64 0
    let v := if v0 < 27 then v0 + 27 else v0
    if v = 27 ∨ v = 28 then
      let signer := ec auth v r s
      if signer = 0 then .error .InvalidSigner else .ok signer
    else .error .InvalidV

/-- LocalUSDC._transfer: require a nonzero recipient, require
balanceOf[from] ≥ amount, then inside an unchecked block set
balanceOf[from] = fromBalance - amount and balanceOf[to] += amount
(the unchecked addition wraps modulo 2^256). -/
def _transfer (s : LedgerState) (fromAddr toAddr amount : Nat) :
    Except TransferError LedgerState :=
  if toAddr = 0 then .error .InvalidRecipient
  else
    let fromBalance := s.balanceOf fromAddr
    if fromBalance < amount then .error .InsufficientBalance
    else
      let b1 := upd s.balanceOf fromAddr (fromBalance - amount)
      let b2 := upd b1 toAddr ((b1 toAddr + amount) % UINT256)
      .ok { s with balanceOf := b2 }

/-- LocalUSDC._transferWithAuthorization: require block.timestamp > validAfter,
block.timestamp < validBefore, an unused (from, nonce), recover the signer and
require it equals `from`; then mark the nonce used and run _transfer. -/
def _transferWithAuthorization (ec : EcRecover) (s : LedgerState) (now : Nat)
    (auth : Authorization) (signature : List Nat) :
    Except TransferError LedgerState :=
  if ¬ (now > auth.validAfter) then .error .NotYetValid
  else if ¬ (now < auth.validBefore) then .error .Expired
  else if s.authorizationState auth.fromAddr auth.nonce then .error .NonceAlreadyUsed
  else
    match _recover ec auth signature with
    | .error e => .error e
    | .ok recovered =>
      if recovered ≠ auth.fromAddr then .error .InvalidSignature
      else
        let s1 : LedgerState :=
          { s with authorizationState :=
              (upd2 s.authorizationState auth.fromAddr auth.nonce true) }
        _transfer s1 auth.fromAddr auth.toAddr auth.value

/-- EVM call semantics of the external transferWithAuthorization entry point:
a require failure reverts the whole transaction, so on error the observable
post-state is the pre-state; on success it is the new state. -/
def transferWithAuthorizationCall (ec : EcRecover) (s : LedgerState) (now : Nat)
    (auth : Authorization) (signature : List Nat) :
    LedgerState × Option TransferError :=
  match _transferWithAuthorization ec s now auth signature with
  | .ok s' => (s', none)
  | .error e => (s, some e)

/-- EVM call semantics of the external transfer entry point (msg.sender is the
caller): revert returns the pre-state. -/
def transferCall (s : LedgerState) (caller toAddr amount : Nat) :
    LedgerState × Option TransferError :=
  match _transfer s caller toAddr amount with
  | .ok s' => (s', none)
  | .error e => (s, some e)

/-- LocalUSDC.mint: onlyOwner; totalSupply += amount and balanceOf[to] += amount
with Solidity 0.8 checked arithmetic (overflow reverts). -/
def mint (s : LedgerState) (caller toAddr amount : Nat) :
    Except MintError LedgerState :=
  if caller ≠ s.owner then .error .OnlyOwner
  else if UINT256 ≤ s.totalSupply + amount then .error .ArithmeticOverflow
  else if UINT256 ≤ s.balanceOf toAddr + amount then .error .ArithmeticOverflow
  else .ok { s with
    totalSupply := s.totalSupply + amount,
    balanceOf := upd s.balanceOf toAddr (s.balanceOf toAddr + amount) }

/-- The errors grouped by the spec as InvalidSignatureRecovery: a recovery
identifier outside the canonical range, ecrecover failure / recovered
address(0), or a recovered address other than the authorizer. -/
def isSigRecoveryError (e : TransferError) : Prop :=
  e = .InvalidV ∨ e = .InvalidSigner ∨ e = .InvalidSignature

/-- The post-state of a successful _transfer, written out explicitly. -/
def transferPost (s : LedgerState) (fromAddr toAddr amount : Nat) : LedgerState :=
  let b1 := upd s.balanceOf fromAddr (s.balanceOf fromAddr - amount)
  { s with balanceOf := upd b1 toAddr ((b1 toAddr + amount) % UINT256) }

/-- The post-state of a successful _transferWithAuthorization: the nonce is
marked used and the balances move as in _transfer. -/
def twaPost (s : LedgerState) (auth : Authorization) : LedgerState :=
  transferPost
    { s with authorizationState :=
        (upd2 s.authorizationState auth.fromAddr auth.nonce true) }
    auth.fromAddr auth.toAddr auth.value

/-- The three require checks of _transferWithAuthorization that precede
signature handling: inside the validity window and nonce not yet used. -/
def preOk (s : LedgerState) (now : Nat) (auth : Authorization) : Prop :=
  auth.validAfter < now ∧ now < auth.validBefore ∧
    s.authorizationState auth.fromAddr auth.nonce = false

/-- The supply accounting invariant of the contract, stated relative to a
finite set S of addresses carrying every nonzero balance: balances vanish
outside S and the balances over S sum to totalSupply. -/
def BalancesTotal (s : LedgerState) (S : Finset Nat) : Prop :=
  (∀ a, a ∉ S → s.balanceOf a = 0) ∧ S.sum s.balanceOf = s.totalSupply

end LocalUSDC

namespace Facilitator

/-- The verifiedPayments Map<string, number>: payment hashes (abstracted as
Nat, the image of the deterministic sha256 createPaymentHash) paired with the
millisecond timestamp recorded at verification. -/
abbrev Cache : Type := List (Nat × Nat)

/-- The verification TTL used by onBeforeSettle: 5 * 60 * 1000 milliseconds. -/
def TTL_MS : Nat := 5 * 60 * 1000

/-- Map.get: the timestamp stored for a hash, if present. -/
def cacheGet (c : Cache) (h : Nat) : Option Nat :=
  match c with
  | [] => none
  | (k, t) :: rest => if k = h then some t else cacheGet rest h

/-- Map.delete: remove every entry for a hash. -/
def cacheDelete (c : Cache) (h : Nat) : Cache :=
  match c with
  | [] => []
  | (k, t) :: rest =>
    if k = h then cacheDelete rest h else (k, t) :: cacheDelete rest h

/-- Map.set: bind a hash to a timestamp, replacing any previous binding. -/
def cacheSet (c : Cache) (h t : Nat) : Cache :=
  (h, t) :: cacheDelete c h

/-- The onAfterVerify hook: record paymentHash → Date.now() in
verifiedPayments exactly when the verify result isValid. -/
def onAfterVerify (c : Cache) (h now : Nat) (isValid : Bool) : Cache :=
  if isValid then cacheSet c h now else c

/-- The abort reason returned by onBeforeSettle when the paymentHash was
never verified (or its record was consumed). -/
def orderingReason : String := "Payment must be verified before settlement"

/-- The abort reason returned by onBeforeSettle when the verification record
is older than the TTL. -/
def expiryReason : String :=
  "Payment verification expired (must settle within 5 minutes)"

/-- The onBeforeSettle hook: look up the paymentHash in verifiedPayments;
if absent, abort with the ordering reason; if `Date.now() - timestamp` exceeds
5 minutes, delete the entry and abort with the expiry reason; otherwise
proceed. Returns the cache after the hook and the abort reason, if any.
JavaScript's possibly-negative age compares to the TTL exactly as truncated
Nat subtraction does, since both reject only when the age strictly exceeds
the TTL. -/
def onBeforeSettle (c : Cache) (h now : Nat) : Cache × Option String :=
  match cacheGet c h with
  | none => (c, some orderingReason)
  | some t =>
    let age := now - t
    if age > TTL_MS then (cacheDelete c h, some expiryReason)
    else (c, none)

/-- The onAfterSettle hook: unconditionally delete the paymentHash from
verifiedPayments after a settle call that returned a result. -/
def onAfterSettle (c : Cache) (h : Nat) : Cache :=
  cacheDelete c h

/-- The onSettleFailure hook: delete the paymentHash from verifiedPayments
when the settle call threw. -/
def onSettleFailure (c : Cache) (h : Nat) : Cache :=
  cacheDelete c h

/-- The outcome of invoking the ledger transition for an admitted settlement:
the SDK either returns a SettleResponse with success=true and a transaction,
returns one with success=false and an error reason, or throws (which includes
submission timeouts and transport faults). -/
inductive LedgerOutcome where
  | succeeded (tx : String)
  | failedWith (reason : String)
  | threw (msg : String)
deriving DecidableEq, Repr

/-- What one settle call reports: aborted by a lifecycle hook (never reached
the ledger), completed with the ledger's SettleResponse, or errored because
the ledger invocation threw. -/
inductive SettleResult where
  | aborted (reason : String)
  | completed (success : Bool) (info : String)
  | errored (msg : String)
deriving DecidableEq, Repr

/-- The settle result produced for each ledger outcome when the attempt is
admitted past the hooks. -/
def outcomeResult : LedgerOutcome → SettleResult
  | .succeeded tx => .completed true tx
  | .failedWith r => .completed false r
  | .threw m => .errored m

/-- Modelled from the spec: the x402Facilitator.settle pipeline itself lives
in the external x402 SDK; the spec (§4.3, §9) and the facilitator's own hook
documentation fix its orchestration: run onBeforeSettle, and on abort return
the abort reason without ever invoking the ledger transition; otherwise
invoke the ledger, then run onAfterSettle when it returned a response and
onSettleFailure when it threw. The ledger outcome is passed as a parameter;
the abort branch does not consult it, which is exactly the statement that an
aborted settlement never reaches the ledger. -/
def settleRun (c : Cache) (h now : Nat) (outcome : LedgerOutcome) :
    Cache × SettleResult :=
  match onBeforeSettle c h now with
  | (c', some reason) => (c', .aborted reason)
  | (c', none) =>
    match outcome with
    | .succeeded tx => (onAfterSettle c' h, .completed true tx)
    | .failedWith r => (onAfterSettle c' h, .completed false r)
    | .threw m => (onSettleFailure c' h, .errored m)

/-- A settle result that was admitted past the hooks, i.e. not a hook abort. -/
def admitted (r : SettleResult) : Prop :=
  ∀ reason, r ≠ .aborted reason

end Facilitator

namespace LocalUSDC

theorem recover_isl_iff (ec : EcRecover) (auth : Authorization) (sig : List Nat) :
    _recover ec auth sig = .error .InvalidSignatureLength ↔ sig.length ≠ 65 := by
  unfold _recover
  dsimp only
  split_ifs with h1 h2 h3 <;> simp_all

theorem recover_error_cases (ec : EcRecover) (auth : Authorization)
    (sig : List Nat) (e : TransferError) (h : _recover ec auth sig = .error e) :
    e = .InvalidSignatureLength ∨ e = .InvalidV ∨ e = .InvalidSigner := by
  unfold _recover at h
  dsimp only at h
  split_ifs at h with h1 h2 h3 <;> simp_all

theorem recover_ok_facts (ec : EcRecover) (auth : Authorization)
    (sig : List Nat) (a : Nat) (h : _recover ec auth sig = .ok a) :
    sig.length = 65 ∧ a ≠ 0 := by
  unfold _recover at h
  dsimp only at h
  split_ifs at h with h1 h2 h3 <;> simp_all

theorem transfer_ir_iff (s : LedgerState) (f t a : Nat) :
    _transfer s f t a = .error .InvalidRecipient ↔ t = 0 := by
  unfold _transfer
  dsimp only
  split_ifs <;> simp_all

theorem transfer_ib_iff (s : LedgerState) (f t a : Nat) :
    _transfer s f t a = .error .InsufficientBalance ↔
      t ≠ 0 ∧ s.balanceOf f < a := by
  unfold _transfer
  dsimp only
  split_ifs <;> simp_all

theorem transfer_ok_iff (s : LedgerState) (f t a : Nat) :
    _transfer s f t a = .ok (transferPost s f t a) ↔
      t ≠ 0 ∧ a ≤ s.balanceOf f := by
  unfold _transfer transferPost
  dsimp only
  split_ifs <;> simp_all

theorem transfer_ok_shape (s : LedgerState) (f t a : Nat) (s' : LedgerState)
    (h : _transfer s f t a = .ok s') :
    s' = transferPost s f t a ∧ t ≠ 0 ∧ a ≤ s.balanceOf f := by
  unfold _transfer at h
  dsimp only at h
  split_ifs at h with h1 h2 <;> simp_all [transferPost]

theorem transfer_error_cases (s : LedgerState) (f t a : Nat) (e : TransferError)
    (h : _transfer s f t a = .error e) :
    e = .InvalidRecipient ∨ e = .InsufficientBalance := by
  unfold _transfer at h
  dsimp only at h
  split_ifs at h <;> simp_all

theorem twa_nyv_iff (ec : EcRecover) (s : LedgerState) (now : Nat)
    (auth : Authorization) (sig : List Nat) :
    _transferWithAuthorization ec s now auth sig = .error .NotYetValid ↔
      now ≤ auth.validAfter := by
  unfold _transferWithAuthorization _transfer
  dsimp only
  cases hrec : _recover ec auth sig with
  | error e =>
    rcases recover_error_cases ec auth sig e hrec with he | he | he <;>
      subst he <;> split_ifs <;> simp_all <;> try omega
  | ok a =>
    by_cases hfa : a = auth.fromAddr
    · subst hfa
      split_ifs <;> simp_all <;> try omega
    · split_ifs <;> simp_all <;> try omega

theorem twa_expired_iff (ec : EcRecover) (s : LedgerState) (now : Nat)
    (auth : Authorization) (sig : List Nat) :
    _transferWithAuthorization ec s now auth sig = .error .Expired ↔
      auth.validAfter < now ∧ auth.validBefore ≤ now := by
  unfold _transferWithAuthorization _transfer
  dsimp only
  cases hrec : _recover ec auth sig with
  | error e =>
    rcases recover_error_cases ec auth sig e hrec with he | he | he <;>
      subst he <;> split_ifs <;> simp_all <;> try omega
  | ok a =>
    by_cases hfa : a = auth.fromAddr
    · subst hfa
      split_ifs <;> simp_all <;> try omega
    · split_ifs <;> simp_all <;> try omega

theorem twa_nonce_iff (ec : EcRecover) (s : LedgerState) (now : Nat)
    (auth : Authorization) (sig : List Nat) :
    _transferWithAuthorization ec s now auth sig = .error .NonceAlreadyUsed ↔
      auth.validAfter < now ∧ now < auth.validBefore ∧
        s.authorizationState auth.fromAddr auth.nonce = true := by
  unfold _transferWithAuthorization _transfer
  dsimp only
  cases hrec : _recover ec auth sig with
  | error e =>
    rcases recover_error_cases ec auth sig e hrec with he | he | he <;>
      subst he <;> split_ifs <;> simp_all <;> try omega
  | ok a =>
    by_cases hfa : a = auth.fromAddr
    · subst hfa
      split_ifs <;> simp_all <;> try omega
    · split_ifs <;> simp_all <;> try omega

theorem twa_isl_iff (ec : EcRecover) (s : LedgerState) (now : Nat)
    (auth : Authorization) (sig : List Nat) :
    _transferWithAuthorization ec s now auth sig
        = .error .InvalidSignatureLength ↔
      preOk s now auth ∧ sig.length ≠ 65 := by
  unfold _transferWithAuthorization _transfer preOk
  dsimp only
  cases hrec : _recover ec auth sig with
  | error e =>
    have hlen := recover_isl_iff ec auth sig
    rcases recover_error_cases ec auth sig e hrec with he | he | he <;>
      subst he <;> split_ifs <;> simp_all <;> try omega
  | ok a =>
    have hlen := (recover_ok_facts ec auth sig a hrec).1
    by_cases hfa : a = auth.fromAddr
    · subst hfa
      split_ifs <;> simp_all <;> try omega
    · split_ifs <;> simp_all <;> try omega

theorem twa_sigrec_iff (ec : EcRecover) (s : LedgerState) (now : Nat)
    (auth : Authorization) (sig : List Nat) :
    (∃ e, _transferWithAuthorization ec s now auth sig = .error e ∧
        isSigRecoveryError e) ↔
      preOk s now auth ∧ sig.length = 65 ∧
        _recover ec auth sig ≠ .ok auth.fromAddr := by
  unfold _transferWithAuthorization _transfer preOk isSigRecoveryError
  dsimp only
  cases hrec : _recover ec auth sig with
  | error e =>
    have hlen := recover_isl_iff ec auth sig
    rcases recover_error_cases ec auth sig e hrec with he | he | he <;>
      subst he <;> split_ifs <;> simp_all <;> try omega
  | ok a =>
    have hlen := (recover_ok_facts ec auth sig a hrec).1
    by_cases hfa : a = auth.fromAddr
    · subst hfa
      split_ifs <;> simp_all <;> try omega
    · split_ifs <;> simp_all <;> try omega

theorem twa_ir_iff (ec : EcRecover) (s : LedgerState) (now : Nat)
    (auth : Authorization) (sig : List Nat) :
    _transferWithAuthorization ec s now auth sig = .error .InvalidRecipient ↔
      preOk s now auth ∧ _recover ec auth sig = .ok auth.fromAddr ∧
        auth.toAddr = 0 := by
  unfold _transferWithAuthorization _transfer preOk
  dsimp only
  cases hrec : _recover ec auth sig with
  | error e =>
    rcases recover_error_cases ec auth sig e hrec with he | he | he <;>
      subst he <;> split_ifs <;> simp_all <;> try omega
  | ok a =>
    by_cases hfa : a = auth.fromAddr
    · subst hfa
      split_ifs <;> simp_all <;> try omega
    · split_ifs <;> simp_all <;> try omega

theorem twa_ib_iff (ec : EcRecover) (s : LedgerState) (now : Nat)
    (auth : Authorization) (sig : List Nat) :
    _transferWithAuthorization ec s now auth sig
        = .error .InsufficientBalance ↔
      preOk s now auth ∧ _recover ec auth sig = .ok auth.fromAddr ∧
        auth.toAddr ≠ 0 ∧ s.balanceOf auth.fromAddr < auth.value := by
  unfold _transferWithAuthorization _transfer preOk
  dsimp only
  cases hrec : _recover ec auth sig with
  | error e =>
    rcases recover_error_cases ec auth sig e hrec with he | he | he <;>
      subst he <;> split_ifs <;> simp_all <;> try omega
  | ok a =>
    by_cases hfa : a = auth.fromAddr
    · subst hfa
      split_ifs <;> simp_all <;> try omega
    · split_ifs <;> simp_all <;> try omega

theorem twa_ok_iff (ec : EcRecover) (s : LedgerState) (now : Nat)
    (auth : Authorization) (sig : List Nat) :
    _transferWithAuthorization ec s now auth sig = .ok (twaPost s auth) ↔
      preOk s now auth ∧ _recover ec auth sig = .ok auth.fromAddr ∧
        auth.toAddr ≠ 0 ∧ auth.value ≤ s.balanceOf auth.fromAddr := by
  unfold _transferWithAuthorization _transfer preOk twaPost transferPost
  dsimp only
  cases hrec : _recover ec auth sig with
  | error e =>
    rcases recover_error_cases ec auth sig e hrec with he | he | he <;>
      subst he <;> split_ifs <;> simp_all <;> try omega
  | ok a =>
    by_cases hfa : a = auth.fromAddr
    · subst hfa
      split_ifs <;> simp_all <;> try omega
    · split_ifs <;> simp_all <;> try omega

theorem twa_ok_shape (ec : EcRecover) (s : LedgerState) (now : Nat)
    (auth : Authorization) (sig : List Nat) (s' : LedgerState)
    (h : _transferWithAuthorization ec s now auth sig = .ok s') :
    s' = twaPost s auth := by
  unfold _transferWithAuthorization at h
  dsimp only at h
  cases hrec : _recover ec auth sig with
  | error e => rw [hrec] at h; split_ifs at h <;> simp_all
  | ok a =>
    rw [hrec] at h
    split_ifs at h <;> simp_all
    by_cases hfa : a = auth.fromAddr
    · subst hfa
      rw [if_pos rfl] at h
      rcases transfer_ok_shape _ _ _ _ _ h with ⟨hs, _, _⟩
      simp_all [twaPost]
    · rw [if_neg hfa] at h
      simp_all

theorem upd_eq_update (f : Nat → Nat) (k v : Nat) :
    upd f k v = Function.update f k v := by
  funext a
  rw [Function.update_apply]
  rfl

theorem upd_upd_same (f : Nat → Nat) (k v w : Nat) :
    upd (upd f k v) k w = upd f k w := by
  funext a
  unfold upd
  split_ifs <;> rfl

theorem upd_self (f : Nat → Nat) (k : Nat) : upd f k (f k) = f := by
  funext a
  unfold upd
  split_ifs with h
  · rw [h]
  · rfl

theorem balance_le_total (s : LedgerState) (S : Finset Nat)
    (hBT : BalancesTotal s S) (a : Nat) : s.balanceOf a ≤ s.totalSupply := by
  by_cases ha : a ∈ S
  · have h1 : s.balanceOf a ≤ S.sum s.balanceOf :=
      Finset.single_le_sum (fun i _ => Nat.zero_le _) ha
    rw [hBT.2] at h1
    exact h1
  · rw [hBT.1 a ha]
    exact Nat.zero_le _

theorem balance_pair_le_total (s : LedgerState) (S : Finset Nat)
    (hBT : BalancesTotal s S) (a b : Nat) (hab : a ≠ b) :
    s.balanceOf a + s.balanceOf b ≤ s.totalSupply := by
  by_cases ha : a ∈ S
  · by_cases hb : b ∈ S
    · have h1 : s.balanceOf b ≤ ∑ x ∈ S.erase a, s.balanceOf x :=
        Finset.single_le_sum (fun i _ => Nat.zero_le _)
          (Finset.mem_erase.2 ⟨fun hba => hab hba.symm, hb⟩)
      have h2 : s.balanceOf a + (∑ x ∈ S.erase a, s.balanceOf x)
          = S.sum s.balanceOf :=
        Finset.add_sum_erase S s.balanceOf ha
      rw [hBT.2] at h2
      omega
    · rw [hBT.1 b hb]
      have := balance_le_total s S hBT a
      omega
  · rw [hBT.1 a ha]
    have := balance_le_total s S hBT b
    omega

theorem balancesTotal_mono (s : LedgerState) (S T : Finset Nat)
    (hBT : BalancesTotal s S) (hST : S ⊆ T) : BalancesTotal s T := by
  constructor
  · intro a haT
    exact hBT.1 a (fun haS => haT (hST haS))
  · rw [← Finset.sum_subset hST (fun x _ hx => hBT.1 x hx)]
    exact hBT.2

theorem transfer_no_overflow (s : LedgerState) (S : Finset Nat)
    (hBT : BalancesTotal s S) (hU : s.totalSupply < UINT256)
    (f t a : Nat) (hbal : a ≤ s.balanceOf f) :
    upd s.balanceOf f (s.balanceOf f - a) t + a < UINT256 := by
  by_cases hft : t = f
  · subst hft
    unfold upd
    rw [if_pos rfl]
    have := balance_le_total s S hBT t
    omega
  · unfold upd
    rw [if_neg hft]
    have := balance_pair_le_total s S hBT t f hft
    omega

theorem transferPost_balanceOf (s : LedgerState) (f t a : Nat) :
    (transferPost s f t a).balanceOf =
      upd (upd s.balanceOf f (s.balanceOf f - a)) t
        ((upd s.balanceOf f (s.balanceOf f - a) t + a) % UINT256) := rfl

theorem transferPost_totalSupply (s : LedgerState) (f t a : Nat) :
    (transferPost s f t a).totalSupply = s.totalSupply := rfl

theorem transferPost_authState (s : LedgerState) (f t a : Nat) :
    (transferPost s f t a).authorizationState = s.authorizationState := rfl

theorem transferPost_sum (s : LedgerState) (S : Finset Nat)
    (hBT : BalancesTotal s S) (hU : s.totalSupply < UINT256)
    (f t a : Nat) (hbal : a ≤ s.balanceOf f) :
    BalancesTotal (transferPost s f t a) (insert f (insert t S)) := by
  have hnov := transfer_no_overflow s S hBT hU f t a hbal
  have hmod : (upd s.balanceOf f (s.balanceOf f - a) t + a) % UINT256 =
      upd s.balanceOf f (s.balanceOf f - a) t + a := Nat.mod_eq_of_lt hnov
  constructor
  · intro x hx
    rw [Finset.mem_insert, Finset.mem_insert] at hx
    push_neg at hx
    rw [transferPost_balanceOf]
    unfold upd
    rw [if_neg hx.2.1, if_neg hx.1]
    exact hBT.1 x hx.2.2
  · rw [transferPost_balanceOf, transferPost_totalSupply, hmod]
    by_cases hft : t = f
    · subst hft
      have hbt : s.balanceOf t < UINT256 := by
        have := balance_le_total s S hBT t
        omega
      have heq : upd (upd s.balanceOf t (s.balanceOf t - a)) t
          (upd s.balanceOf t (s.balanceOf t - a) t + a) = s.balanceOf := by
        rw [upd_upd_same]
        have h1 : upd s.balanceOf t (s.balanceOf t - a) t = s.balanceOf t - a := by
          unfold upd
          rw [if_pos rfl]
        rw [h1, Nat.sub_add_cancel hbal, upd_self]
      rw [heq]
      exact (balancesTotal_mono s S _ hBT
        (fun x hx => Finset.mem_insert_of_mem (Finset.mem_insert_of_mem hx))).2
    · have h1t : upd s.balanceOf f (s.balanceOf f - a) t = s.balanceOf t := by
        unfold upd
        rw [if_neg hft]
      have hfT : f ∈ insert f (insert t S) := Finset.mem_insert_self f _
      have htT : t ∈ insert f (insert t S) :=
        Finset.mem_insert_of_mem (Finset.mem_insert_self t _)
      rw [upd_eq_update, upd_eq_update]
      rw [Finset.sum_update_of_mem htT]
      rw [Finset.sdiff_singleton_eq_erase]
      have hfe : f ∈ (insert f (insert t S)).erase t :=
        Finset.mem_erase.2 ⟨fun hf => hft hf.symm, hfT⟩
      rw [← upd_eq_update, upd_eq_update, Finset.sum_update_of_mem hfe]
      rw [Finset.sdiff_singleton_eq_erase]
      have hsum : (∑ x ∈ insert f (insert t S), s.balanceOf x)
          = s.totalSupply :=
        (balancesTotal_mono s S _ hBT (fun x hx =>
          Finset.mem_insert_of_mem (Finset.mem_insert_of_mem hx))).2
      have h2 := Finset.add_sum_erase (insert f (insert t S)) s.balanceOf htT
      have h3 := Finset.add_sum_erase ((insert f (insert t S)).erase t)
        s.balanceOf hfe
      rw [Function.update_noteq hft]
      omega

theorem mint_ok_shape (s : LedgerState) (c t a : Nat) (s' : LedgerState)
    (h : mint s c t a = .ok s') :
    c = s.owner ∧ s.totalSupply + a < UINT256 ∧ s.balanceOf t + a < UINT256 ∧
      s' = { s with
        totalSupply := s.totalSupply + a,
        balanceOf := upd s.balanceOf t (s.balanceOf t + a) } := by
  unfold mint at h
  split_ifs at h with h1 h2 h3 <;> simp_all <;> omega

theorem mint_preserves (s : LedgerState) (S : Finset Nat) (c t a : Nat)
    (s' : LedgerState) (hBT : BalancesTotal s S) (h : mint s c t a = .ok s') :
    BalancesTotal s' (insert t S) ∧
      s'.totalSupply = s.totalSupply + a ∧
      s'.balanceOf t = s.balanceOf t + a := by
  rcases mint_ok_shape s c t a s' h with ⟨-, -, -, hs⟩
  subst hs
  refine ⟨⟨?_, ?_⟩, rfl, ?_⟩
  · intro x hx
    rw [Finset.mem_insert] at hx
    push_neg at hx
    show upd s.balanceOf t (s.balanceOf t + a) x = 0
    unfold upd
    rw [if_neg hx.1]
    exact hBT.1 x hx.2
  · show (insert t S).sum (upd s.balanceOf t (s.balanceOf t + a))
      = s.totalSupply + a
    rw [upd_eq_update]
    have htT : t ∈ insert t S := Finset.mem_insert_self t S
    rw [Finset.sum_update_of_mem htT, Finset.sdiff_singleton_eq_erase]
    have h2 := Finset.add_sum_erase (insert t S) s.balanceOf htT
    have hsum : (∑ x ∈ insert t S, s.balanceOf x) = s.totalSupply :=
      (balancesTotal_mono s S _ hBT (fun x hx => Finset.mem_insert_of_mem hx)).2
    omega
  · show upd s.balanceOf t (s.balanceOf t + a) t = s.balanceOf t + a
    unfold upd
    rw [if_pos rfl]

theorem transferPost_deltas (s : LedgerState) (f t a : Nat)
    (hft : f ≠ t) (hbal : a ≤ s.balanceOf f)
    (hov : s.balanceOf t + a < UINT256) :
    s.balanceOf f = (transferPost s f t a).balanceOf f + a ∧
    (transferPost s f t a).balanceOf t = s.balanceOf t + a ∧
    (∀ x, x ≠ f → x ≠ t → (transferPost s f t a).balanceOf x = s.balanceOf x) := by
  rw [transferPost_balanceOf]
  unfold upd
  refine ⟨?_, ?_, ?_⟩
  · rw [if_neg (fun hh : f = t => hft hh), if_pos rfl]
    omega
  · rw [if_pos rfl, if_neg (fun hh : t = f => hft hh.symm)]
    exact Nat.mod_eq_of_lt hov
  · intro x hxf hxt
    rw [if_neg hxt, if_neg hxf]

theorem transferPost_self (s : LedgerState) (f a : Nat)
    (hbal : a ≤ s.balanceOf f) (hlt : s.balanceOf f < UINT256) :
    ∀ x, (transferPost s f f a).balanceOf x = s.balanceOf x := by
  intro x
  rw [transferPost_balanceOf]
  unfold upd
  by_cases hx : x = f
  · rw [if_pos hx, if_pos rfl]
    have : s.balanceOf f - a + a = s.balanceOf f := Nat.sub_add_cancel hbal
    rw [this, Nat.mod_eq_of_lt hlt, hx]
  · rw [if_neg hx, if_neg hx]

theorem twaPost_authState_used (s : LedgerState) (auth : Authorization) :
    (twaPost s auth).authorizationState auth.fromAddr auth.nonce = true := by
  show upd2 s.authorizationState auth.fromAddr auth.nonce true
    auth.fromAddr auth.nonce = true
  unfold upd2
  rw [if_pos ⟨rfl, rfl⟩]

end LocalUSDC

namespace Facilitator

theorem cacheGet_cacheDelete_self (c : Cache) (h : Nat) :
    cacheGet (cacheDelete c h) h = none := by
  induction c with
  | nil => rfl
  | cons p rest ih =>
    obtain ⟨k, t⟩ := p
    unfold cacheDelete
    by_cases hk : k = h
    · rw [if_pos hk]
      exact ih
    · rw [if_neg hk]
      unfold cacheGet
      rw [if_neg hk]
      exact ih

theorem cacheGet_cacheSet_self (c : Cache) (h t : Nat) :
    cacheGet (cacheSet c h t) h = some t := by
  unfold cacheSet cacheGet
  rw [if_pos rfl]

theorem settleRun_outcome (c : Cache) (h now t : Nat) (o : LedgerOutcome)
    (hget : cacheGet c h = some t) (hage : now - t ≤ TTL_MS) :
    settleRun c h now o = (onAfterSettle c h, outcomeResult o) := by
  unfold settleRun onBeforeSettle
  rw [hget]
  dsimp only
  rw [if_neg (by omega : ¬ now - t > TTL_MS)]
  cases o <;> rfl

theorem settleRun_expired (c : Cache) (h now t : Nat) (o : LedgerOutcome)
    (hget : cacheGet c h = some t) (hage : TTL_MS < now - t) :
    settleRun c h now o = (cacheDelete c h, .aborted expiryReason) := by
  unfold settleRun onBeforeSettle
  rw [hget]
  dsimp only
  rw [if_pos (by omega : now - t > TTL_MS)]

theorem settleRun_missing (c : Cache) (h now : Nat) (o : LedgerOutcome)
    (hget : cacheGet c h = none) :
    settleRun c h now o = (c, .aborted orderingReason) := by
  unfold settleRun onBeforeSettle
  rw [hget]

theorem outcomeResult_ne_aborted (o : LedgerOutcome) (reason : String) :
    outcomeResult o ≠ .aborted reason := by
  cases o <;> simp [outcomeResult]

end Facilitator

namespace LocalUSDC

/-- C1 counterexample: the claim fails as stated on two counts. First, an
authorization whose (authorizer, nonce) pair is already used does not always
fail with NonceAlreadyUsed: when its validity window has not yet opened the
earlier window check fires and the error is NotYetValid. Second, an
authorization with validAfter < now < validBefore, an unused nonce and
sufficient balance does not always succeed: with a signature recovering to an
address other than the authorizer it fails with InvalidSignature. -/
theorem C1_counterexample :
    ({ owner := 0, totalSupply := 10,
       balanceOf := fun a => if a = 1 then 10 else 0,
       authorizationState := fun a n => decide (a = 1 ∧ n = 7) } :
      LedgerState).authorizationState 1 7 = true
    ∧ _transferWithAuthorization (fun _ _ _ _ => 1)
        { owner := 0, totalSupply := 10,
          balanceOf := fun a => if a = 1 then 10 else 0,
          authorizationState := fun a n => decide (a = 1 ∧ n = 7) }
        3
        { fromAddr := 1, toAddr := 2, value := 5, validAfter := 5,
          validBefore := 10, nonce := 7 }
        (List.replicate 65 0) = .error .NotYetValid
    ∧ TransferError.NotYetValid ≠ TransferError.NonceAlreadyUsed
    ∧ (5 : Nat) < 6 ∧ (6 : Nat) < 10
    ∧ ({ owner := 0, totalSupply := 10,
         balanceOf := fun a => if a = 1 then 10 else 0,
         authorizationState := fun _ _ => false } :
        LedgerState).authorizationState 1 7 = false
    ∧ (5 : Nat) ≤ 10
    ∧ _transferWithAuthorization (fun _ _ _ _ => 2)
        { owner := 0, totalSupply := 10,
          balanceOf := fun a => if a = 1 then 10 else 0,
          authorizationState := fun _ _ => false }
        6
        { fromAddr := 1, toAddr := 2, value := 5, validAfter := 5,
          validBefore := 10, nonce := 7 }
        (List.replicate 65 0) = .error .InvalidSignature := by
  exact ⟨by decide, rfl, by decide, by decide, by decide, rfl, by decide, rfl⟩

/-- C1 (amended): within its validity window, an authorization whose
(authorizer, nonce) pair is already used always fails with NonceAlreadyUsed,
regardless of the signature; an authorization with validAfter < now <
validBefore, an unused nonce, a signature recovering to the authorizer, a
nonzero payee and authorizer balance ≥ value succeeds; and a successful
call transitions the NonceRecord from used=false to used=true. -/
theorem C1_amended :
    (∀ (ec : EcRecover) (s : LedgerState) (now : Nat) (auth : Authorization)
        (sig : List Nat),
      auth.validAfter < now → now < auth.validBefore →
      s.authorizationState auth.fromAddr auth.nonce = true →
      _transferWithAuthorization ec s now auth sig = .error .NonceAlreadyUsed)
    ∧
    (∀ (ec : EcRecover) (s : LedgerState) (now : Nat) (auth : Authorization)
        (sig : List Nat),
      preOk s now auth →
      _recover ec auth sig = .ok auth.fromAddr →
      auth.toAddr ≠ 0 →
      auth.value ≤ s.balanceOf auth.fromAddr →
      ∃ s', _transferWithAuthorization ec s now auth sig = .ok s')
    ∧
    (∀ (ec : EcRecover) (s : LedgerState) (now : Nat) (auth : Authorization)
        (sig : List Nat) (s' : LedgerState),
      _transferWithAuthorization ec s now auth sig = .ok s' →
      s.authorizationState auth.fromAddr auth.nonce = false ∧
      s'.authorizationState auth.fromAddr auth.nonce = true) := by
  refine ⟨?_, ?_, ?_⟩
  · intro ec s now auth sig h1 h2 h3
    exact (twa_nonce_iff ec s now auth sig).mpr ⟨h1, h2, h3⟩
  · intro ec s now auth sig hpre hrec hto hbal
    exact ⟨twaPost s auth,
      (twa_ok_iff ec s now auth sig).mpr ⟨hpre, hrec, hto, hbal⟩⟩
  · intro ec s now auth sig s' h
    have hs := twa_ok_shape ec s now auth sig s' h
    rw [hs] at h ⊢
    have hc := (twa_ok_iff ec s now auth sig).mp h
    exact ⟨hc.1.2.2, twaPost_authState_used s auth⟩

/-- Witness for C1 (amended), instantiated on concrete ledger states. -/
theorem C1_amended_witness :
    _transferWithAuthorization (fun _ _ _ _ => 1)
      { owner := 0, totalSupply := 10,
        balanceOf := fun a => if a = 1 then 10 else 0,
        authorizationState := fun a n => decide (a = 1 ∧ n = 7) }
      6
      { fromAddr := 1, toAddr := 2, value := 5, validAfter := 5,
        validBefore := 10, nonce := 7 }
      (List.replicate 65 0) = .error .NonceAlreadyUsed
    ∧ (∃ s', _transferWithAuthorization (fun _ _ _ _ => 1)
        { owner := 0, totalSupply := 10,
          balanceOf := fun a => if a = 1 then 10 else 0,
          authorizationState := fun _ _ => false }
        6
        { fromAddr := 1, toAddr := 2, value := 5, validAfter := 5,
          validBefore := 10, nonce := 7 }
        (List.replicate 65 0) = .ok s')
    ∧ (({ owner := 0, totalSupply := 10,
          balanceOf := fun a => if a = 1 then 10 else 0,
          authorizationState := fun _ _ => false } :
          LedgerState).authorizationState 1 7 = false
       ∧ (twaPost
          { owner := 0, totalSupply := 10,
            balanceOf := fun a => if a = 1 then 10 else 0,
            authorizationState := fun _ _ => false }
          { fromAddr := 1, toAddr := 2, value := 5, validAfter := 5,
            validBefore := 10, nonce := 7 }).authorizationState 1 7 = true) := by
  refine ⟨C1_amended.1 _ _ _ _ (List.replicate 65 0)
      (by decide) (by decide) (by decide),
    C1_amended.2.1 _ _ _ _ (List.replicate 65 0)
      ⟨by decide, by decide, rfl⟩ rfl (by decide) (by decide),
    C1_amended.2.2 (fun _ _ _ _ => 1)
      { owner := 0, totalSupply := 10,
        balanceOf := fun a => if a = 1 then 10 else 0,
        authorizationState := fun _ _ => false }
      6
      { fromAddr := 1, toAddr := 2, value := 5, validAfter := 5,
        validBefore := 10, nonce := 7 }
      (List.replicate 65 0)
      (twaPost
        { owner := 0, totalSupply := 10,
          balanceOf := fun a => if a = 1 then 10 else 0,
          authorizationState := fun _ _ => false }
        { fromAddr := 1, toAddr := 2, value := 5, validAfter := 5,
          validBefore := 10, nonce := 7 })
      rfl⟩

end LocalUSDC

namespace LocalUSDC

/-- C2 counterexample: the claim fails as stated on two counts. First, a
self-transfer (sender = payee) of value 5 from an account holding 10
succeeds but leaves the balance at 10, whereas the claim requires the
sender's balance to decrease by exactly 5. Second, in a raw state whose
recipient balance is 2^256 - 1, the unchecked addition wraps: after a
successful transfer of 5 the recipient holds 4, not 2^256 - 1 + 5. -/
theorem C2_counterexample :
    ((transferCall
        { owner := 0, totalSupply := 10,
          balanceOf := fun a => if a = 1 then 10 else 0,
          authorizationState := fun _ _ => false } 1 1 5).2 = none
    ∧ (transferCall
        { owner := 0, totalSupply := 10,
          balanceOf := fun a => if a = 1 then 10 else 0,
          authorizationState := fun _ _ => false } 1 1 5).1.balanceOf 1 = 10
    ∧ (10 : Nat) ≠ 10 - 5)
    ∧
    ((transferCall
        { owner := 0, totalSupply := 2 ^ 256 + 9,
          balanceOf := fun a => if a = 1 then 10 else
            if a = 2 then 2 ^ 256 - 1 else 0,
          authorizationState := fun _ _ => false } 1 2 5).2 = none
    ∧ (transferCall
        { owner := 0, totalSupply := 2 ^ 256 + 9,
          balanceOf := fun a => if a = 1 then 10 else
            if a = 2 then 2 ^ 256 - 1 else 0,
          authorizationState := fun _ _ => false } 1 2 5).1.balanceOf 2 = 4
    ∧ (4 : Nat) ≠ 2 ^ 256 - 1 + 5) := by
  exact ⟨⟨rfl, rfl, by decide⟩, ⟨rfl, rfl, by decide⟩⟩

/-- C2 (amended): for every successful transfer of value v from A to payee B
with A ≠ B, from a state where B's balance plus v fits in uint256 (as holds
in any state whose balances sum to a totalSupply below 2^256), A's balance
decreases by exactly v, B's increases by exactly v, and every other balance
is unchanged; this holds both for the direct _transfer path and for
_transferWithAuthorization. A self-transfer (A = B) succeeds but leaves
every balance unchanged. -/
theorem C2_amended :
    (∀ (s : LedgerState) (f t a : Nat) (s' : LedgerState),
      _transfer s f t a = .ok s' → f ≠ t → s.balanceOf t + a < UINT256 →
      s.balanceOf f = s'.balanceOf f + a ∧
      s'.balanceOf t = s.balanceOf t + a ∧
      (∀ x, x ≠ f → x ≠ t → s'.balanceOf x = s.balanceOf x))
    ∧
    (∀ (s : LedgerState) (f a : Nat) (s' : LedgerState),
      _transfer s f f a = .ok s' → s.balanceOf f < UINT256 →
      ∀ x, s'.balanceOf x = s.balanceOf x)
    ∧
    (∀ (ec : EcRecover) (s : LedgerState) (now : Nat) (auth : Authorization)
        (sig : List Nat) (s' : LedgerState),
      _transferWithAuthorization ec s now auth sig = .ok s' →
      auth.fromAddr ≠ auth.toAddr →
      s.balanceOf auth.toAddr + auth.value < UINT256 →
      s.balanceOf auth.fromAddr = s'.balanceOf auth.fromAddr + auth.value ∧
      s'.balanceOf auth.toAddr = s.balanceOf auth.toAddr + auth.value ∧
      (∀ x, x ≠ auth.fromAddr → x ≠ auth.toAddr →
        s'.balanceOf x = s.balanceOf x)) := by
  refine ⟨?_, ?_, ?_⟩
  · intro s f t a s' h hft hov
    rcases transfer_ok_shape s f t a s' h with ⟨hs, -, hbal⟩
    rw [hs]
    exact transferPost_deltas s f t a hft hbal hov
  · intro s f a s' h hlt
    rcases transfer_ok_shape s f f a s' h with ⟨hs, -, hbal⟩
    rw [hs]
    exact transferPost_self s f a hbal hlt
  · intro ec s now auth sig s' h hft hov
    have hs := twa_ok_shape ec s now auth sig s' h
    rw [hs] at h
    rcases (twa_ok_iff ec s now auth sig).mp h with ⟨-, -, -, hbal⟩
    rw [hs]
    exact transferPost_deltas
      { s with authorizationState :=
          (upd2 s.authorizationState auth.fromAddr auth.nonce true) }
      auth.fromAddr auth.toAddr auth.value hft hbal hov

/-- Witness for C2 (amended): a concrete transfer of 4 from account 1 to
account 2, and a concrete self-transfer. -/
theorem C2_amended_witness :
    (({ owner := 0, totalSupply := 10,
        balanceOf := fun a => if a = 1 then 10 else 0,
        authorizationState := fun _ _ => false } :
        LedgerState).balanceOf 1 =
      (transferPost
        { owner := 0, totalSupply := 10,
          balanceOf := fun a => if a = 1 then 10 else 0,
          authorizationState := fun _ _ => false } 1 2 4).balanceOf 1 + 4
    ∧ (transferPost
        { owner := 0, totalSupply := 10,
          balanceOf := fun a => if a = 1 then 10 else 0,
          authorizationState := fun _ _ => false } 1 2 4).balanceOf 2 =
      ({ owner := 0, totalSupply := 10,
         balanceOf := fun a => if a = 1 then 10 else 0,
         authorizationState := fun _ _ => false } :
        LedgerState).balanceOf 2 + 4
    ∧ (∀ x, x ≠ 1 → x ≠ 2 →
        (transferPost
          { owner := 0, totalSupply := 10,
            balanceOf := fun a => if a = 1 then 10 else 0,
            authorizationState := fun _ _ => false } 1 2 4).balanceOf x =
        ({ owner := 0, totalSupply := 10,
           balanceOf := fun a => if a = 1 then 10 else 0,
           authorizationState := fun _ _ => false } :
          LedgerState).balanceOf x))
    ∧ (∀ x,
        (transferPost
          { owner := 0, totalSupply := 10,
            balanceOf := fun a => if a = 1 then 10 else 0,
            authorizationState := fun _ _ => false } 1 1 5).balanceOf x =
        ({ owner := 0, totalSupply := 10,
           balanceOf := fun a => if a = 1 then 10 else 0,
           authorizationState := fun _ _ => false } :
          LedgerState).balanceOf x) := by
  refine ⟨C2_amended.1
      { owner := 0, totalSupply := 10,
        balanceOf := fun a => if a = 1 then 10 else 0,
        authorizationState := fun _ _ => false }
      1 2 4
      (transferPost
        { owner := 0, totalSupply := 10,
          balanceOf := fun a => if a = 1 then 10 else 0,
          authorizationState := fun _ _ => false } 1 2 4)
      rfl (by decide) (by decide),
    C2_amended.2.1
      { owner := 0, totalSupply := 10,
        balanceOf := fun a => if a = 1 then 10 else 0,
        authorizationState := fun _ _ => false }
      1 5
      (transferPost
        { owner := 0, totalSupply := 10,
          balanceOf := fun a => if a = 1 then 10 else 0,
          authorizationState := fun _ _ => false } 1 1 5)
      rfl (by decide)⟩

/-- C3 counterexample: on an input that triggers both InsufficientBalance
(authorizer balance 0 < value 5) and InvalidRecipient (payee is the zero
address), with all earlier checks passing, the code reports InvalidRecipient;
the claimed order predicts InsufficientBalance, since it lists
InsufficientBalance before InvalidRecipient. -/
theorem C3_counterexample :
    _transferWithAuthorization (fun _ _ _ _ => 1)
      { owner := 0, totalSupply := 0,
        balanceOf := fun _ => 0,
        authorizationState := fun _ _ => false }
      6
      { fromAddr := 1, toAddr := 0, value := 5, validAfter := 5,
        validBefore := 10, nonce := 7 }
      (List.replicate 65 0) = .error .InvalidRecipient
    ∧ (0 : Nat) < 5
    ∧ TransferError.InvalidRecipient ≠ TransferError.InsufficientBalance := by
  exact ⟨rfl, by decide, by decide⟩

/-- C3 (amended): the failure conditions of _transferWithAuthorization are
checked in the order NotYetValid, Expired, NonceAlreadyUsed,
InvalidSignatureLength, InvalidSignatureRecovery (recovery fails, recovers to
the zero address, or recovers to an address other than the authorizer),
InvalidRecipient, InsufficientBalance — i.e. with InvalidRecipient before
InsufficientBalance — and an error is returned before any state mutation
becomes observable: each error is reported exactly when all earlier checks
pass and its own condition fails. -/
theorem C3_amended :
    ∀ (ec : EcRecover) (s : LedgerState) (now : Nat) (auth : Authorization)
      (sig : List Nat),
    (_transferWithAuthorization ec s now auth sig = .error .NotYetValid ↔
      now ≤ auth.validAfter)
    ∧ (_transferWithAuthorization ec s now auth sig = .error .Expired ↔
      auth.validAfter < now ∧ auth.validBefore ≤ now)
    ∧ (_transferWithAuthorization ec s now auth sig
        = .error .NonceAlreadyUsed ↔
      auth.validAfter < now ∧ now < auth.validBefore ∧
        s.authorizationState auth.fromAddr auth.nonce = true)
    ∧ (_transferWithAuthorization ec s now auth sig
        = .error .InvalidSignatureLength ↔
      preOk s now auth ∧ sig.length ≠ 65)
    ∧ ((∃ e, _transferWithAuthorization ec s now auth sig = .error e ∧
        isSigRecoveryError e) ↔
      preOk s now auth ∧ sig.length = 65 ∧
        _recover ec auth sig ≠ .ok auth.fromAddr)
    ∧ (_transferWithAuthorization ec s now auth sig
        = .error .InvalidRecipient ↔
      preOk s now auth ∧ _recover ec auth sig = .ok auth.fromAddr ∧
        auth.toAddr = 0)
    ∧ (_transferWithAuthorization ec s now auth sig
        = .error .InsufficientBalance ↔
      preOk s now auth ∧ _recover ec auth sig = .ok auth.fromAddr ∧
        auth.toAddr ≠ 0 ∧ s.balanceOf auth.fromAddr < auth.value) := by
  intro ec s now auth sig
  exact ⟨twa_nyv_iff ec s now auth sig, twa_expired_iff ec s now auth sig,
    twa_nonce_iff ec s now auth sig, twa_isl_iff ec s now auth sig,
    twa_sigrec_iff ec s now auth sig, twa_ir_iff ec s now auth sig,
    twa_ib_iff ec s now auth sig⟩

/-- Witness for C3 (amended): concrete instances of the first and the last
two clauses of the ordering characterization. -/
theorem C3_amended_witness :
    _transferWithAuthorization (fun _ _ _ _ => 1)
      { owner := 0, totalSupply := 0,
        balanceOf := fun _ => 0,
        authorizationState := fun _ _ => false }
      3
      { fromAddr := 1, toAddr := 2, value := 5, validAfter := 5,
        validBefore := 10, nonce := 7 }
      (List.replicate 65 0) = .error .NotYetValid
    ∧ _transferWithAuthorization (fun _ _ _ _ => 1)
      { owner := 0, totalSupply := 0,
        balanceOf := fun _ => 0,
        authorizationState := fun _ _ => false }
      6
      { fromAddr := 1, toAddr := 2, value := 5, validAfter := 5,
        validBefore := 10, nonce := 7 }
      (List.replicate 65 0) = .error .InsufficientBalance := by
  refine ⟨(C3_amended (fun _ _ _ _ => 1)
      { owner := 0, totalSupply := 0,
        balanceOf := fun _ => 0,
        authorizationState := fun _ _ => false }
      3
      { fromAddr := 1, toAddr := 2, value := 5, validAfter := 5,
        validBefore := 10, nonce := 7 }
      (List.replicate 65 0)).1.mpr (by decide),
    (C3_amended (fun _ _ _ _ => 1)
      { owner := 0, totalSupply := 0,
        balanceOf := fun _ => 0,
        authorizationState := fun _ _ => false }
      6
      { fromAddr := 1, toAddr := 2, value := 5, validAfter := 5,
        validBefore := 10, nonce := 7 }
      (List.replicate 65 0)).2.2.2.2.2.2.mpr
      ⟨⟨by decide, by decide, rfl⟩, rfl, by decide, by decide⟩⟩

end LocalUSDC

namespace LocalUSDC

/-- C7: authorizeAndTransfer is atomic under EVM call semantics: whenever it
fails with any error, the observable post-state equals the pre-state — all
balances, all nonce records and the total supply are unchanged, so no partial
application (such as a nonce marked used without the balance transfer) is
ever observable. -/
theorem C7_atomic :
    ∀ (ec : EcRecover) (s : LedgerState) (now : Nat) (auth : Authorization)
      (sig : List Nat) (e : TransferError),
    (transferWithAuthorizationCall ec s now auth sig).2 = some e →
    (transferWithAuthorizationCall ec s now auth sig).1 = s := by
  intro ec s now auth sig e h
  unfold transferWithAuthorizationCall at h ⊢
  cases htwa : _transferWithAuthorization ec s now auth sig <;> simp_all

/-- Witness for C7 at a concrete failing call (window not yet open). -/
theorem C7_witness :
    (transferWithAuthorizationCall (fun _ _ _ _ => 1)
      { owner := 0, totalSupply := 0,
        balanceOf := fun _ => 0,
        authorizationState := fun _ _ => false }
      3
      { fromAddr := 1, toAddr := 2, value := 5, validAfter := 5,
        validBefore := 10, nonce := 7 }
      (List.replicate 65 0)).1 =
    { owner := 0, totalSupply := 0,
      balanceOf := fun _ => 0,
      authorizationState := fun _ _ => false } :=
  C7_atomic (fun _ _ _ _ => 1)
    { owner := 0, totalSupply := 0,
      balanceOf := fun _ => 0,
      authorizationState := fun _ _ => false }
    3
    { fromAddr := 1, toAddr := 2, value := 5, validAfter := 5,
      validBefore := 10, nonce := 7 }
    (List.replicate 65 0) .NotYetValid rfl

/-- C8: an authorized transfer succeeds only if validAfter < now <
validBefore (strict inequalities on both sides), the signature recovers to
the claimed authorizer, and the authorizer balance is at least the value;
whenever any of these conditions fails, the call returns an error and the
observable ledger state is the unchanged pre-state. -/
theorem C8_success_conditions :
    (∀ (ec : EcRecover) (s : LedgerState) (now : Nat) (auth : Authorization)
        (sig : List Nat) (s' : LedgerState),
      _transferWithAuthorization ec s now auth sig = .ok s' →
      auth.validAfter < now ∧ now < auth.validBefore ∧
        _recover ec auth sig = .ok auth.fromAddr ∧
        auth.value ≤ s.balanceOf auth.fromAddr)
    ∧
    (∀ (ec : EcRecover) (s : LedgerState) (now : Nat) (auth : Authorization)
        (sig : List Nat),
      ¬ (auth.validAfter < now ∧ now < auth.validBefore ∧
          _recover ec auth sig = .ok auth.fromAddr ∧
          auth.value ≤ s.balanceOf auth.fromAddr) →
      ∃ e, transferWithAuthorizationCall ec s now auth sig = (s, some e)) := by
  constructor
  · intro ec s now auth sig s' h
    have hs := twa_ok_shape ec s now auth sig s' h
    rw [hs] at h
    rcases (twa_ok_iff ec s now auth sig).mp h with ⟨⟨h1, h2, -⟩, hrec, -, hbal⟩
    exact ⟨h1, h2, hrec, hbal⟩
  · intro ec s now auth sig hnot
    cases htwa : _transferWithAuthorization ec s now auth sig with
    | error e =>
      refine ⟨e, ?_⟩
      unfold transferWithAuthorizationCall
      rw [htwa]
    | ok s' =>
      exfalso
      have hs := twa_ok_shape ec s now auth sig s' htwa
      rw [hs] at htwa
      rcases (twa_ok_iff ec s now auth sig).mp htwa with
        ⟨⟨h1, h2, -⟩, hrec, -, hbal⟩
      exact hnot ⟨h1, h2, hrec, hbal⟩

/-- Witness for C8: a concrete successful call satisfies the three
conditions, and a concrete call outside the window returns an error with
the state unchanged. -/
theorem C8_witness :
    ((5 : Nat) < 6 ∧ (6 : Nat) < 10 ∧
      _recover (fun _ _ _ _ => 1)
        { fromAddr := 1, toAddr := 2, value := 5, validAfter := 5,
          validBefore := 10, nonce := 7 }
        (List.replicate 65 0) = .ok 1 ∧
      (5 : Nat) ≤ 10)
    ∧ (∃ e, transferWithAuthorizationCall (fun _ _ _ _ => 1)
        { owner := 0, totalSupply := 10,
          balanceOf := fun a => if a = 1 then 10 else 0,
          authorizationState := fun _ _ => false }
        3
        { fromAddr := 1, toAddr := 2, value := 5, validAfter := 5,
          validBefore := 10, nonce := 7 }
        (List.replicate 65 0) =
      ({ owner := 0, totalSupply := 10,
         balanceOf := fun a => if a = 1 then 10 else 0,
         authorizationState := fun _ _ => false }, some e)) := by
  refine ⟨C8_success_conditions.1 (fun _ _ _ _ => 1)
      { owner := 0, totalSupply := 10,
        balanceOf := fun a => if a = 1 then 10 else 0,
        authorizationState := fun _ _ => false }
      6
      { fromAddr := 1, toAddr := 2, value := 5, validAfter := 5,
        validBefore := 10, nonce := 7 }
      (List.replicate 65 0)
      (twaPost
        { owner := 0, totalSupply := 10,
          balanceOf := fun a => if a = 1 then 10 else 0,
          authorizationState := fun _ _ => false }
        { fromAddr := 1, toAddr := 2, value := 5, validAfter := 5,
          validBefore := 10, nonce := 7 })
      rfl,
    C8_success_conditions.2 (fun _ _ _ _ => 1)
      { owner := 0, totalSupply := 10,
        balanceOf := fun a => if a = 1 then 10 else 0,
        authorizationState := fun _ _ => false }
      3
      { fromAddr := 1, toAddr := 2, value := 5, validAfter := 5,
        validBefore := 10, nonce := 7 }
      (List.replicate 65 0)
      (fun hc => (by decide : ¬ (5 : Nat) < 3) hc.1)⟩

/-- C10: balances sum to totalSupply: mint increases the recipient balance
and totalSupply by the same amount and preserves the invariant; direct and
authorized transfers preserve the invariant and leave totalSupply unchanged;
and consequently the unchecked recipient-balance addition in _transfer never
overflows — its wrapped value equals its unwrapped value whenever balances
sum to a totalSupply below 2^256, each balance being bounded by
totalSupply. -/
theorem C10_supply_invariant :
    (∀ (s : LedgerState) (S : Finset Nat) (c t a : Nat) (s' : LedgerState),
      BalancesTotal s S → mint s c t a = .ok s' →
      BalancesTotal s' (insert t S) ∧
        s'.totalSupply = s.totalSupply + a ∧
        s'.balanceOf t = s.balanceOf t + a)
    ∧
    (∀ (s : LedgerState) (S : Finset Nat) (f t a : Nat) (s' : LedgerState),
      BalancesTotal s S → s.totalSupply < UINT256 →
      _transfer s f t a = .ok s' →
      BalancesTotal s' (insert f (insert t S)) ∧
        s'.totalSupply = s.totalSupply)
    ∧
    (∀ (ec : EcRecover) (s : LedgerState) (S : Finset Nat) (now : Nat)
        (auth : Authorization) (sig : List Nat) (s' : LedgerState),
      BalancesTotal s S → s.totalSupply < UINT256 →
      _transferWithAuthorization ec s now auth sig = .ok s' →
      BalancesTotal s' (insert auth.fromAddr (insert auth.toAddr S)) ∧
        s'.totalSupply = s.totalSupply)
    ∧
    (∀ (s : LedgerState) (S : Finset Nat) (f t a : Nat),
      BalancesTotal s S → s.totalSupply < UINT256 → a ≤ s.balanceOf f →
      (upd s.balanceOf f (s.balanceOf f - a) t + a) % UINT256 =
        upd s.balanceOf f (s.balanceOf f - a) t + a) := by
  refine ⟨?_, ?_, ?_, ?_⟩
  · intro s S c t a s' hBT h
    exact mint_preserves s S c t a s' hBT h
  · intro s S f t a s' hBT hU h
    rcases transfer_ok_shape s f t a s' h with ⟨hs, -, hbal⟩
    rw [hs]
    exact ⟨transferPost_sum s S hBT hU f t a hbal, rfl⟩
  · intro ec s S now auth sig s' hBT hU h
    have hs := twa_ok_shape ec s now auth sig s' h
    rw [hs] at h
    rcases (twa_ok_iff ec s now auth sig).mp h with ⟨-, -, -, hbal⟩
    rw [hs]
    have hBT1 : BalancesTotal
        { s with authorizationState :=
            (upd2 s.authorizationState auth.fromAddr auth.nonce true) } S := hBT
    exact ⟨transferPost_sum
      { s with authorizationState :=
          (upd2 s.authorizationState auth.fromAddr auth.nonce true) }
      S hBT1 hU auth.fromAddr auth.toAddr auth.value hbal, rfl⟩
  · intro s S f t a hBT hU hbal
    exact Nat.mod_eq_of_lt (transfer_no_overflow s S hBT hU f t a hbal)

/-- Witness for C10: a concrete mint of 5 to account 2 on a ledger where
account 1 holds the whole supply of 10. -/
theorem C10_witness :
    BalancesTotal
      { owner := 0, totalSupply := 10 + 5,
        balanceOf := upd (fun a => if a = 1 then 10 else 0) 2
          ((fun a => if a = 1 then 10 else 0) 2 + 5),
        authorizationState := fun _ _ => false }
      (insert 2 {1})
    ∧ (10 + 5 : Nat) = 10 + 5
    ∧ upd (fun a => if a = 1 then 10 else 0) 2
        ((fun a => if a = 1 then 10 else 0) 2 + 5) 2 = 0 + 5 := by
  refine C10_supply_invariant.1
    { owner := 0, totalSupply := 10,
      balanceOf := fun a => if a = 1 then 10 else 0,
      authorizationState := fun _ _ => false }
    {1} 0 2 5
    { owner := 0, totalSupply := 10 + 5,
      balanceOf := upd (fun a => if a = 1 then 10 else 0) 2
        ((fun a => if a = 1 then 10 else 0) 2 + 5),
      authorizationState := fun _ _ => false }
    ⟨?_, ?_⟩ rfl
  · intro a ha
    rw [Finset.mem_singleton] at ha
    show (if a = 1 then 10 else 0) = 0
    rw [if_neg ha]
  · show ({1} : Finset Nat).sum (fun a => if a = 1 then 10 else 0) = 10
    rw [Finset.sum_singleton]
    rfl

end LocalUSDC

namespace Facilitator

/-- C4: every payload admitted past the lifecycle hooks to a settle attempt
has its verification-cache entry evicted immediately afterward, whatever the
ledger outcome (success, explicit failure, or thrown error); every subsequent
settle for the same paymentHash aborts with the ordering error; and the
ordering precondition passes again only once the payload is re-verified,
which reinstates the cache entry. -/
theorem C4_settle_exactly_once (c : Cache) (h now : Nat) (o : LedgerOutcome)
    (hadm : admitted (settleRun c h now o).2) :
    cacheGet (settleRun c h now o).1 h = none ∧
    (∀ now' o', settleRun (settleRun c h now o).1 h now' o' =
      ((settleRun c h now o).1, .aborted orderingReason)) ∧
    (∀ tv, cacheGet (onAfterVerify (settleRun c h now o).1 h tv true) h
      = some tv) := by
  cases hget : cacheGet c h with
  | none =>
    exact absurd (by rw [settleRun_missing c h now o hget])
      (hadm orderingReason)
  | some t =>
    by_cases hage : now - t ≤ TTL_MS
    · have hrun := settleRun_outcome c h now t o hget hage
      rw [hrun]
      refine ⟨cacheGet_cacheDelete_self c h, ?_, ?_⟩
      · intro now' o'
        exact settleRun_missing _ h now' o' (cacheGet_cacheDelete_self c h)
      · intro tv
        exact cacheGet_cacheSet_self _ h tv
    · have hrun := settleRun_expired c h now t o hget (by omega)
      exact absurd (by rw [hrun]) (hadm expiryReason)

/-- Witness for C4: a concrete verified entry settled well inside the TTL
with a successful ledger outcome. -/
theorem C4_witness :
    cacheGet (settleRun [(5, 100)] 5 200 (.succeeded "0xabc")).1 5 = none ∧
    (∀ now' o', settleRun (settleRun [(5, 100)] 5 200 (.succeeded "0xabc")).1
        5 now' o' =
      ((settleRun [(5, 100)] 5 200 (.succeeded "0xabc")).1,
        .aborted orderingReason)) ∧
    (∀ tv, cacheGet
      (onAfterVerify (settleRun [(5, 100)] 5 200 (.succeeded "0xabc")).1
        5 tv true) 5 = some tv) :=
  C4_settle_exactly_once [(5, 100)] 5 200 (.succeeded "0xabc")
    (fun r hr => SettleResult.noConfusion
      (show SettleResult.completed true "0xabc" = .aborted r from hr))

/-- C5: a settle attempt for a paymentHash absent from the verification cache
aborts with the ordering error "must be verified before settlement", leaves
the cache unchanged, and never invokes the ledger transition: its result is
independent of the ledger outcome parameter. -/
theorem C5_verify_before_settle (c : Cache) (h now : Nat) (o : LedgerOutcome)
    (habs : cacheGet c h = none) :
    settleRun c h now o = (c, .aborted orderingReason) ∧
    (∀ o', settleRun c h now o' = settleRun c h now o) := by
  refine ⟨settleRun_missing c h now o habs, ?_⟩
  intro o'
  rw [settleRun_missing c h now o habs, settleRun_missing c h now o' habs]

/-- Witness for C5: settling against the empty cache. -/
theorem C5_witness :
    settleRun [] 9 1234 (.succeeded "0xabc") =
      ([], .aborted orderingReason) ∧
    (∀ o', settleRun [] 9 1234 o' = settleRun [] 9 1234 (.succeeded "0xabc")) :=
  C5_verify_before_settle [] 9 1234 (.succeeded "0xabc") rfl

/-- C6: for a verified payload, settlement is admitted if and only if
now - verifiedAt ≤ 5 minutes; past the TTL the attempt aborts with the
expiry error and evicts the cache entry. -/
theorem C6_ttl_boundary (c : Cache) (h now t : Nat) (o : LedgerOutcome)
    (hget : cacheGet c h = some t) :
    (now - t ≤ TTL_MS ↔ (settleRun c h now o).2 = outcomeResult o) ∧
    (TTL_MS < now - t →
      settleRun c h now o = (cacheDelete c h, .aborted expiryReason) ∧
      cacheGet (settleRun c h now o).1 h = none) := by
  constructor
  · constructor
    · intro hage
      rw [settleRun_outcome c h now t o hget hage]
    · intro hres
      by_contra hage
      push_neg at hage
      rw [settleRun_expired c h now t o hget hage] at hres
      exact outcomeResult_ne_aborted o expiryReason hres.symm
  · intro hage
    have hrun := settleRun_expired c h now t o hget hage
    refine ⟨hrun, ?_⟩
    rw [hrun]
    exact cacheGet_cacheDelete_self c h

/-- Witness for C6: verification recorded at t0 = 1000; a settle at age
TTL − 1 is admitted, and a settle at age TTL + 1 aborts with the expiry
error and evicts the entry. -/
theorem C6_witness :
    ((1000 + TTL_MS - 1) - 1000 ≤ TTL_MS ∧
      (settleRun [(3, 1000)] 3 (1000 + TTL_MS - 1) (.succeeded "0xtx")).2 =
        outcomeResult (.succeeded "0xtx")) ∧
    (TTL_MS < (1000 + TTL_MS + 1) - 1000 ∧
      settleRun [(3, 1000)] 3 (1000 + TTL_MS + 1) (.succeeded "0xtx") =
        (cacheDelete [(3, 1000)] 3, .aborted expiryReason) ∧
      cacheGet
        (settleRun [(3, 1000)] 3 (1000 + TTL_MS + 1) (.succeeded "0xtx")).1 3
        = none) := by
  refine ⟨⟨by decide,
      (C6_ttl_boundary [(3, 1000)] 3 (1000 + TTL_MS - 1) 1000
        (.succeeded "0xtx") rfl).1.mp (by decide)⟩,
    by decide,
    (C6_ttl_boundary [(3, 1000)] 3 (1000 + TTL_MS + 1) 1000
      (.succeeded "0xtx") rfl).2 (by decide)⟩

/-- C9 counterexample: the claim fails as stated. A settle attempt whose
ledger invocation throws — which includes submission timeouts and other
ambiguous infrastructure faults — still evicts the verification-cache entry
through the onSettleFailure hook, so a payload whose settlement outcome is
unknown is not retryable without re-verification: the immediate retry aborts
with the ordering error. -/
theorem C9_counterexample :
    cacheGet [(7, 1000)] 7 = some 1000 ∧
    settleRun [(7, 1000)] 7 2000 (.threw "submission timeout") =
      ([], .errored "submission timeout") ∧
    cacheGet (settleRun [(7, 1000)] 7 2000 (.threw "submission timeout")).1 7
      = none ∧
    settleRun (settleRun [(7, 1000)] 7 2000 (.threw "submission timeout")).1 7
      2500 (.succeeded "0xtx") = ([], .aborted orderingReason) :=
  ⟨rfl, rfl, rfl, rfl⟩

/-- C9 (amended): the verification-cache entry for a paymentHash is absent
after any settle attempt, whatever the outcome — success, explicit failure,
or thrown error, timeouts included; whenever the attempt is not the
missing-verification abort (where there is nothing to evict), the post-state
cache is exactly the pre-state cache with the entry deleted, so no outcome
preserves retry-ability without re-verification. -/
theorem C9_amended (c : Cache) (h now : Nat) (o : LedgerOutcome) :
    cacheGet (settleRun c h now o).1 h = none ∧
    ((settleRun c h now o).2 ≠ .aborted orderingReason →
      (settleRun c h now o).1 = cacheDelete c h) := by
  cases hget : cacheGet c h with
  | none =>
    rw [settleRun_missing c h now o hget]
    exact ⟨hget, fun hne => absurd rfl hne⟩
  | some t =>
    by_cases hage : now - t ≤ TTL_MS
    · rw [settleRun_outcome c h now t o hget hage]
      exact ⟨cacheGet_cacheDelete_self c h, fun _ => rfl⟩
    · rw [settleRun_expired c h now t o hget (by omega)]
      exact ⟨cacheGet_cacheDelete_self c h, fun _ => rfl⟩

/-- Witness for C9 (amended): a settle attempt whose ledger invocation
reports an explicit failure evicts the concrete cache entry. -/
theorem C9_amended_witness :
    cacheGet (settleRun [(7, 1000)] 7 2000
      (.failedWith "insufficient balance")).1 7 = none ∧
    (settleRun [(7, 1000)] 7 2000 (.failedWith "insufficient balance")).1 =
      cacheDelete [(7, 1000)] 7 :=
  ⟨(C9_amended [(7, 1000)] 7 2000 (.failedWith "insufficient balance")).1,
   (C9_amended [(7, 1000)] 7 2000 (.failedWith "insufficient balance")).2
     (fun hr => SettleResult.noConfusion
       (show SettleResult.completed false "insufficient balance"
         = .aborted orderingReason from hr))⟩

end Facilitator
